import Mathlib

/-!
# Verification of the FHETetris game engine and score contract

Shallow embedding of the game logic in
`packages/nextjs/app/_components/FHETetris.tsx` and of the score-storage
contract `packages/hardhat/contracts/FHETetris.sol`.

Conventions of the embedding:
* board cells and shape cells are `Nat` (JavaScript numbers `0..7`; a cell is
  "truthy" in JS iff it is non-zero);
* a board (`arena`) is a `List (List Nat)` of rows, top row first;
* piece positions are `Int`, since the JS code indexes the arena with possibly
  negative `y + o.y`; a JS array read `a[i]` yields `undefined` exactly when
  `i < 0` or `i ≥ a.length`, which we model with an `Option`-valued lookup.
-/

namespace FHETetris

/-- Integer-indexed list lookup: JS `a[i]` is `undefined` (here `none`) for
`i < 0` or `i ≥ a.length`. -/
def elemAt? {α : Type} (l : List α) (i : Int) : Option α :=
  if 0 ≤ i then l[i.toNat]? else none

/-- Grid position, `x` = column, `y` = row (row 0 is the top). -/
structure Pos where
  x : Int
  y : Int
  deriving Repr, DecidableEq

/-- The falling piece: `player = { pos, matrix }` in the source. -/
structure Player where
  pos : Pos
  matrix : List (List Nat)
  deriving Repr, DecidableEq

/-- Board width and height fixed in the source: `COLS = 10`, `ROWS = 20`. -/
def COLS : Nat := 10

def ROWS : Nat := 20

/-- The shape catalogue (`shapes` in the source); index 0 is the empty
sentinel, indices 1..7 are the seven tetrominoes. -/
def shapes : List (List (List Nat)) :=
  [ [],
    [[1, 1, 1, 1]],
    [[2, 0, 0], [2, 2, 2]],
    [[0, 0, 3], [3, 3, 3]],
    [[4, 4], [4, 4]],
    [[0, 5, 5], [5, 5, 0]],
    [[0, 6, 0], [6, 6, 6]],
    [[7, 7, 0], [0, 7, 7]] ]

/-- The empty starting arena: `ROWS` rows of `COLS` zeros. -/
def arena0 : List (List Nat) := List.replicate ROWS (List.replicate COLS 0)

/-- The initial `player` object of a game session: `pos: {x: 0, y: 0}` and a
randomly chosen shape (the random index is a parameter here).  Note the source
initialises `pos.x` to `0`; `playerReset` is not called at game start. -/
def player0 (idx : Nat) : Player :=
  { pos := { x := 0, y := 0 }, matrix := shapes.getD idx [] }

/-- The test `(arena[r] && arena[r][c]) !== 0` of `collide`.  When `arena[r]`
is `undefined` (row index out of range) the conjunction evaluates to
`undefined`, and `undefined !== 0` is `true`; when the row exists but `c` is
out of range, `row[c]` is `undefined` and again `undefined !== 0` is `true`;
otherwise the cell value is compared with `0`. -/
def cellBlocked (arena : List (List Nat)) (r c : Int) : Bool :=
  match elemAt? arena r with
  | none => true
  | some row =>
    match elemAt? row c with
    | none => true
    | some v => v ≠ 0

/-- `collide(arena, player)`: some non-zero shape cell `(x, y)` has
`(arena[y + o.y] && arena[y + o.y][x + o.x]) !== 0`. -/
def collide (arena : List (List Nat)) (p : Player) : Bool :=
  (List.range p.matrix.length).any fun y =>
    (List.range (p.matrix.getD y []).length).any fun x =>
      ((p.matrix.getD y []).getD x 0 ≠ 0)
        && cellBlocked arena ((y : Int) + p.pos.y) ((x : Int) + p.pos.x)

/-- The single write `arena[r][c] = v` of `merge`, for in-range coordinates
(`List.set` is a no-op out of range; `merge` is only invoked by the game at
in-range coordinates, the situation claim C10 describes). -/
def setCell (arena : List (List Nat)) (r c : Int) (v : Nat) : List (List Nat) :=
  if 0 ≤ r ∧ 0 ≤ c then
    arena.set r.toNat ((arena.getD r.toNat []).set c.toNat v)
  else arena

/-- Inner loop of `merge`: `row.forEach((val, x) => { if (val !== 0)
arena[y + pos.y][x + pos.x] = val })`, with `x0` the index of the first
element of the remaining row. -/
def writeRowAux (r px : Int) : List Nat → Nat → List (List Nat) → List (List Nat)
  | [], _, arena => arena
  | v :: rest, x0, arena =>
    writeRowAux r px rest (x0 + 1)
      (if v ≠ 0 then setCell arena r ((x0 : Int) + px) v else arena)

/-- Outer loop of `merge`: `player.matrix.forEach((row, y) => ...)`, with `y0`
the index of the first remaining row. -/
def mergeAux (py px : Int) : List (List Nat) → Nat → List (List Nat) → List (List Nat)
  | [], _, arena => arena
  | row :: rest, y0, arena =>
    mergeAux py px rest (y0 + 1) (writeRowAux ((y0 : Int) + py) px row 0 arena)

/-- `merge(arena, player)`: writes every non-zero cell of the piece into the
arena at its absolute coordinates. -/
def merge (arena : List (List Nat)) (p : Player) : List (List Nat) :=
  mergeAux p.pos.y p.pos.x p.matrix 0 arena

/-- `arena[y].every(x => x !== 0)`: the row is completely non-zero. -/
def fullRow (r : List Nat) : Bool := r.all fun v => v ≠ 0

/-- One clearing step of `sweep`:
`const row = arena.splice(y, 1)[0].fill(0); arena.unshift(row);` —
the row at index `y` is removed, zero-filled and pushed on top. -/
def clearAt (arena : List (List Nat)) (y : Nat) : List (List Nat) :=
  ((arena.getD y []).map fun _ => 0) :: arena.eraseIdx y

/-- The `for (let y = arena.length - 1; y > 0; --y)` loop of `sweep`.  The
loop either decrements `y` or clears a row (keeping `y`, as the source does
`y++` right before the loop's `--y`); `fuel` bounds the number of iterations
(each iteration consumes one unit, and `sweepRun` supplies enough, see
`sweepAux_spec`).  Besides the arena the loop carries the source's `rowCount`
multiplier and the score accumulated through `setScore`; the `cleared` counter
is the sweep's observable "rows cleared" count of the specification.
Result: `(new arena, rows cleared, score added)`. -/
def sweepAux : Nat → List (List Nat) → Nat → Nat → Nat → Nat →
    List (List Nat) × Nat × Nat
  | 0, arena, _, _, cleared, score => (arena, cleared, score)
  | fuel + 1, arena, y, rowCount, cleared, score =>
    if y = 0 then (arena, cleared, score)
    else if fullRow (arena.getD y []) then
      sweepAux fuel (clearAt arena y) y (rowCount * 2) (cleared + 1)
        (score + rowCount * 15)
    else
      sweepAux fuel arena (y - 1) rowCount cleared score

/-- `sweep()`: scan from the bottom row `arena.length - 1` up to (and
excluding) row `0`, with `rowCount = 1` initially. -/
def sweepRun (arena : List (List Nat)) : List (List Nat) × Nat × Nat :=
  sweepAux (2 * arena.length + 1) arena (arena.length - 1) 1 0 0

/-- `rotate(matrix)`: `matrix[0].map((_, i) => matrix.map(row => row[i])).reverse()`.
`matrix[0].map((_, i) => e(i))` produces one entry per column index `i` of the
first row, hence the `List.range`; `row[i]` is always in range for the
rectangular matrices the game uses (`getD`'s default is irrelevant there). -/
def rotate (matrix : List (List Nat)) : List (List Nat) :=
  ((List.range (matrix.headD []).length).map fun i =>
    matrix.map fun row => row.getD i 0).reverse

/-- Game state owned by the controller: the arena, the falling piece, the
`score` and `gameOver` React state. -/
structure GameState where
  arena : List (List Nat)
  player : Player
  score : Nat
  gameOver : Bool
  deriving Repr, DecidableEq

/-- `playerReset()`: picks a shape (the random index is the parameter `idx`),
places it at `y = 0`, `x = Math.floor(COLS / 2) - Math.floor(matrix[0].length / 2)`,
and sets `gameOver` when the fresh piece already collides. -/
def playerResetOn (idx : Nat) (s : GameState) : GameState :=
  let shape := shapes.getD idx []
  let p : Player :=
    { matrix := shape,
      pos := { x := ((COLS / 2 : Nat) : Int) - (((shape.headD []).length / 2 : Nat) : Int),
               y := 0 } }
  if collide s.arena p then
    { s with player := p, gameOver := true }
  else
    { s with player := p }

/-- `playerDrop()`: move the piece one row down; on collision, undo the move,
merge at the pre-move position, sweep, and respawn via `playerReset` (the
fresh random shape index is the parameter `idx`). -/
def playerDrop (idx : Nat) (s : GameState) : GameState :=
  if s.gameOver then s
  else
    let moved : Player := { s.player with pos := { s.player.pos with y := s.player.pos.y + 1 } }
    if collide s.arena moved then
      let landed : Player := { moved with pos := { moved.pos with y := moved.pos.y - 1 } }
      let merged := merge s.arena landed
      let swept := sweepRun merged
      playerResetOn idx
        { arena := swept.1, player := landed, score := s.score + swept.2.2,
          gameOver := s.gameOver }
    else
      { s with player := moved }

/-- `movePlayer(dir)`: shift the piece horizontally, revert on collision. -/
def movePlayer (dir : Int) (s : GameState) : GameState :=
  let moved : Player := { s.player with pos := { s.player.pos with x := s.player.pos.x + dir } }
  if collide s.arena moved then s else { s with player := moved }

/-- The kick loop of `playerRotate`: `while (collide(arena, player)) {
player.pos.x += offset; offset = -(offset + (offset > 0 ? 1 : -1));
if (offset > player.matrix[0].length) return; }`.  `fuel` bounds the
iterations (the offset magnitude grows each round, so the loop exits after at
most about `2 * width + 2` rounds; `playerRotate` supplies that much).
Note that the early `return` leaves the piece as it stands at that moment. -/
def playerRotateAux : Nat → List (List Nat) → Player → Int → Player
  | 0, _, p, _ => p
  | fuel + 1, arena, p, offset =>
    if collide arena p then
      let p' : Player := { p with pos := { p.pos with x := p.pos.x + offset } }
      let offset' : Int := -(offset + (if offset > 0 then 1 else -1))
      if offset' > ((p'.matrix.headD []).length : Int) then p'
      else playerRotateAux fuel arena p' offset'
    else p

/-- `playerRotate()`: rotate the piece's matrix, then run the kick loop with
initial `offset = 1`.  The source saves `const pos = player.pos.x` but never
uses it again. -/
def playerRotate (arena : List (List Nat)) (p : Player) : Player :=
  let p' : Player := { p with matrix := rotate p.matrix }
  playerRotateAux (2 * (p'.matrix.headD []).length + 3) arena p' 1

/-- Reading one board cell at integer coordinates, `none` when either index
is out of range (used to state what `merge` changes). -/
def getCell? (arena : List (List Nat)) (r c : Int) : Option Nat :=
  match elemAt? arena r with
  | none => none
  | some row => elemAt? row c

/-- Specification-side description of which rows survive one `sweep` call:
if some full row sits at an index ≥ 1 the scan clears every full row
(a full row 0 is dragged down into scanned territory by the lower clears);
otherwise — in particular when row 0 is the only full row — nothing is
cleared. -/
def sweepSurviving (arena : List (List Nat)) : List (List Nat) :=
  if (arena.drop 1).any fullRow then arena.filter (fun r => !fullRow r) else arena

/-- Specification-side count of the rows one `sweep` call clears. -/
def sweepClears (arena : List (List Nat)) : Nat :=
  arena.length - (sweepSurviving arena).length

/-- A running state with a one-cell piece resting on the floor of an empty
2×2 board, used to exercise `playerDrop_step`. -/
def lockDemoState : GameState :=
  { arena := [[0, 0], [0, 0]], player := { pos := ⟨0, 1⟩, matrix := [[9]] },
    score := 0, gameOver := false }

/-! ## The score contract (`FHETetris.sol`)

`uploadScore` verifies the ciphertext and pushes the resulting handle onto
`_playerScores[msg.sender]`; `fetchScores(player)` returns
`_playerScores[player]`.  Addresses and score handles are modelled as `Nat`;
the FHE access-control calls (`allowThis` / `allow`) do not touch the stored
list and are outside this model. -/

/-- The contract storage `mapping(address => euint32[]) _playerScores`. -/
def ContractState : Type := Nat → List Nat

/-- `uploadScore`: `_playerScores[msg.sender].push(internalScore)`. -/
def uploadScore (st : ContractState) (sender : Nat) (handle : Nat) : ContractState :=
  fun a => if a = sender then st a ++ [handle] else st a

/-- `fetchScores(player)`: `return _playerScores[player]`. -/
def fetchScores (st : ContractState) (player : Nat) : List Nat :=
  st player

/-- A sequence of `uploadScore` transactions, each a `(sender, handle)` pair,
applied in order. -/
def runUploads (st : ContractState) (calls : List (Nat × Nat)) : ContractState :=
  calls.foldl (fun s c => uploadScore s c.1 c.2) st

/-! ## Helper lemmas about the collision test -/

theorem collide_eq_true_iff (arena : List (List Nat)) (p : Player) :
    collide arena p = true ↔
      ∃ y < p.matrix.length, ∃ x < (p.matrix.getD y []).length,
        (p.matrix.getD y []).getD x 0 ≠ 0 ∧
        cellBlocked arena ((y : Int) + p.pos.y) ((x : Int) + p.pos.x) = true := by
  simp [collide, List.any_eq_true, List.mem_range, decide_eq_true_eq]

theorem cellBlocked_of_out (arena : List (List Nat)) (r c : Int)
    (h : r < 0 ∨ (arena.length : Int) ≤ r ∨ c < 0 ∨
      ((arena.getD r.toNat []).length : Int) ≤ c) :
    cellBlocked arena r c = true := by
  rcases h with h | h | h | h
  · have hr0 : ¬ (0 : Int) ≤ r := by omega
    simp [cellBlocked, elemAt?, hr0]
  · have hr0 : (0 : Int) ≤ r := by omega
    have hlen : arena.length ≤ r.toNat := by omega
    simp [cellBlocked, elemAt?, hr0, List.getElem?_eq_none hlen]
  · rcases hrow : elemAt? arena r with _ | row
    · simp [cellBlocked, hrow]
    · have hc0 : ¬ (0 : Int) ≤ c := by omega
      unfold cellBlocked
      rw [hrow]
      simp [elemAt?, hc0]
  · rcases hrow : elemAt? arena r with _ | row
    · simp [cellBlocked, hrow]
    · have hr0 : (0 : Int) ≤ r := by
        by_contra hr0
        simp [elemAt?, hr0] at hrow
      have hrow' : arena[r.toNat]? = some row := by
        simpa [elemAt?, hr0] using hrow
      have hgetD : arena.getD r.toNat [] = row := by
        simp [List.getD_eq_getElem?_getD, hrow']
      have hc0 : (0 : Int) ≤ c := by
        have : (0 : Int) ≤ (row.length : Int) := by positivity
        omega
      have hlen : row.length ≤ c.toNat := by
        rw [hgetD] at h; omega
      unfold cellBlocked
      rw [hrow]
      simp [elemAt?, hc0, List.getElem?_eq_none hlen]

/-! ## C1: the claimed off-top asymmetry of `collide` -/

/-- **C1** (counterexample).  A piece whose only non-zero shape cell maps to
row `-1` (above the board's top) with its column inside `[0, width)` makes
`collide` return `true`: in JS, `arena[-1]` is `undefined` and
`(undefined && _) !== 0` evaluates to `true`, so an off-top row is *not*
treated as an empty cell. -/
theorem collide_offtop_counterexample :
    collide [[0, 0], [0, 0]] { matrix := [[1]], pos := ⟨0, -1⟩ } = true ∧
    ((0 : Int) + (-1) < 0 ∧ 0 ≤ (0 : Int) + 0 ∧ (0 : Int) + 0 < 2) := by
  decide

/-- **C1** (amended).  There is no off-top exception in `collide`: any
non-zero shape cell whose absolute coordinates fall outside the board — row
above the top, row below the bottom, or column outside `[0, width)` — makes
`collide` return `true`. -/
theorem collide_of_cell_out_of_bounds (arena : List (List Nat)) (p : Player)
    (y x : Nat) (hy : y < p.matrix.length) (hx : x < (p.matrix.getD y []).length)
    (hv : (p.matrix.getD y []).getD x 0 ≠ 0)
    (hout : (y : Int) + p.pos.y < 0 ∨ (arena.length : Int) ≤ (y : Int) + p.pos.y ∨
      (x : Int) + p.pos.x < 0 ∨
      ((arena.getD ((y : Int) + p.pos.y).toNat []).length : Int) ≤ (x : Int) + p.pos.x) :
    collide arena p = true :=
  (collide_eq_true_iff arena p).2 ⟨y, hy, x, hx, hv, cellBlocked_of_out _ _ _ hout⟩

/-- Witness for `collide_of_cell_out_of_bounds`: a single-cell piece at
column 5 on a 1×2 board collides. -/
theorem collide_of_cell_out_of_bounds_witness :
    collide [[0, 0]] { matrix := [[1]], pos := ⟨5, 0⟩ } = true :=
  collide_of_cell_out_of_bounds [[0, 0]] { matrix := [[1]], pos := ⟨5, 0⟩ } 0 0
    (by decide) (by decide) (by decide) (by decide)

/-! ## C9: off-bottom rows always collide -/

/-- **C9**.  Any non-zero shape cell mapping to an absolute row index at or
below the board's bottom edge (`y + o.y ≥ height`) makes `collide` return
`true`. -/
theorem collide_below_bottom (arena : List (List Nat)) (p : Player)
    (y x : Nat) (hy : y < p.matrix.length) (hx : x < (p.matrix.getD y []).length)
    (hv : (p.matrix.getD y []).getD x 0 ≠ 0)
    (hbot : (arena.length : Int) ≤ (y : Int) + p.pos.y) :
    collide arena p = true :=
  (collide_eq_true_iff arena p).2
    ⟨y, hy, x, hx, hv, cellBlocked_of_out _ _ _ (Or.inr (Or.inl hbot))⟩

/-- Witness for `collide_below_bottom`: a single-cell piece at row 2 of a
2-row board collides. -/
theorem collide_below_bottom_witness :
    collide [[0, 0], [0, 0]] { matrix := [[1]], pos := ⟨0, 2⟩ } = true :=
  collide_below_bottom [[0, 0], [0, 0]] { matrix := [[1]], pos := ⟨0, 2⟩ } 0 0
    (by decide) (by decide) (by decide) (by decide)

/-! ## C5: spawn centering -/

/-- **C5** (counterexample).  The first piece of a game session is created by
the `player` initialiser with `pos = {x: 0, y: 0}` — `playerReset` is not
called at game start — and `x = 0` differs from the centered column
`⌊COLS/2⌋ - ⌊shapeWidth/2⌋` (here `3` for the I-piece, shape index 1). -/
theorem initial_piece_not_centered :
    (player0 1).pos.x = 0 ∧ (player0 1).pos.y = 0 ∧
    ((COLS / 2 : Nat) : Int) - ((((player0 1).matrix.headD []).length / 2 : Nat) : Int) = 3 ∧
    (player0 1).pos.x ≠
      ((COLS / 2 : Nat) : Int) - ((((player0 1).matrix.headD []).length / 2 : Nat) : Int) := by
  decide

/-- **C5** (amended).  Every piece spawned by `playerReset` is horizontally
centered, `offset.x = ⌊COLS/2⌋ - ⌊shapeWidth/2⌋`, with `offset.y = 0`; the
initial piece of a session, by contrast, is created at offset `(0, 0)`. -/
theorem playerReset_spawn_centered (idx : Nat) (s : GameState) :
    ((playerResetOn idx s).player.matrix = shapes.getD idx [] ∧
      (playerResetOn idx s).player.pos.x =
        ((COLS / 2 : Nat) : Int) -
          (((((playerResetOn idx s).player.matrix.headD []).length / 2 : Nat)) : Int) ∧
      (playerResetOn idx s).player.pos.y = 0) ∧
    (player0 idx).pos.x = 0 ∧ (player0 idx).pos.y = 0 := by
  constructor
  · unfold playerResetOn
    dsimp only
    split <;> simp
  · exact ⟨rfl, rfl⟩

/-! ## C2: the rotation kick loop does not restore the piece on failure -/

/-- **C2** (the code contradicts the claim).  On the 2×2 board
`[[1,0],[1,0]]` the vertical domino `[[2],[2]]` at `(x,y) = (1,0)` does not
collide, but rotating it fails at every kick offset, and `playerRotate`
then `return`s without restoring anything: the piece is left with the
*rotated* shape `[[2,2]]` at the shifted position `(0,0)`, where it
*collides* with the board.  (The source saves `const pos = player.pos.x`
for a restore that never happens — the variable is dead.) -/
theorem playerRotate_failure_not_restored :
    collide [[1, 0], [1, 0]] { matrix := [[2], [2]], pos := ⟨1, 0⟩ } = false ∧
    playerRotate [[1, 0], [1, 0]] { matrix := [[2], [2]], pos := ⟨1, 0⟩ } =
      { matrix := [[2, 2]], pos := ⟨0, 0⟩ } ∧
    collide [[1, 0], [1, 0]]
      (playerRotate [[1, 0], [1, 0]] { matrix := [[2], [2]], pos := ⟨1, 0⟩ }) = true := by
  decide

/-! ## C8: the score contract appends per-player, in order -/

/-- **C8**.  `uploadScore` appends exactly one handle at the end of the
caller's stored list, leaves every other player's list unchanged, and after
any sequence of uploads `fetchScores(player)` returns that player's handles
in exactly upload order. -/
theorem uploadScore_fetchScores_spec :
    (∀ (st : ContractState) (sender h : Nat),
        fetchScores (uploadScore st sender h) sender = fetchScores st sender ++ [h]) ∧
    (∀ (st : ContractState) (sender h other : Nat), other ≠ sender →
        fetchScores (uploadScore st sender h) other = fetchScores st other) ∧
    (∀ (st : ContractState) (calls : List (Nat × Nat)) (player : Nat),
        fetchScores (runUploads st calls) player =
          fetchScores st player ++ (calls.filter fun c => c.1 == player).map Prod.snd) := by
  refine ⟨?_, ?_, ?_⟩
  · intro st sender h
    simp [fetchScores, uploadScore]
  · intro st sender h other hne
    simp [fetchScores, uploadScore, hne]
  · intro st calls player
    induction calls generalizing st with
    | nil => simp [runUploads, fetchScores]
    | cons c rest ih =>
      have hstep : runUploads st (c :: rest) = runUploads (uploadScore st c.1 c.2) rest := rfl
      rw [hstep, ih]
      by_cases hc : c.1 = player
      · simp [fetchScores, uploadScore, hc]
      · simp [fetchScores, uploadScore, hc, Ne.symm hc]

/-- Witness for `uploadScore_fetchScores_spec` on a concrete upload
sequence. -/
theorem uploadScore_fetchScores_spec_witness :
    fetchScores (uploadScore (fun _ => []) 1 42) 1 = [42] ∧
    fetchScores (uploadScore (fun _ => []) 1 42) 2 = [] ∧
    fetchScores (runUploads (fun _ => []) [(1, 100), (2, 9), (1, 200)]) 1 = [100, 200] := by
  refine ⟨?_, ?_, ?_⟩
  · simpa [fetchScores] using uploadScore_fetchScores_spec.1 (fun _ => []) 1 42
  · simpa [fetchScores] using
      uploadScore_fetchScores_spec.2.1 (fun _ => []) 1 42 2 (by decide)
  · simpa [fetchScores] using
      uploadScore_fetchScores_spec.2.2 (fun _ => []) [(1, 100), (2, 9), (1, 200)] 1

/-! ## C3: cascade scoring -/

theorem cascade_step (rc d : Nat) :
    rc * 15 + rc * 2 * 15 * (2 ^ d - 1) = rc * 15 * (2 ^ (d + 1) - 1) := by
  obtain ⟨A, hA⟩ : ∃ A, 2 ^ d = A + 1 :=
    ⟨2 ^ d - 1, by have := Nat.one_le_two_pow (n := d); omega⟩
  rw [pow_succ, hA]
  have h1 : A + 1 - 1 = A := by omega
  have h2 : (A + 1) * 2 - 1 = 2 * A + 1 := by omega
  rw [h1, h2]
  ring

/-- Loop invariant of `sweepAux`: the cleared counter only grows, and the
score grows by `rowCount * 15 * (2^clears - 1)` for `clears` rows cleared:
15 for the first, 30 for the second, 60 for the third, doubling each time. -/
theorem sweepAux_cleared_score :
    ∀ (fuel : Nat) (arena : List (List Nat)) (y rc cl sc : Nat),
      cl ≤ (sweepAux fuel arena y rc cl sc).2.1 ∧
      (sweepAux fuel arena y rc cl sc).2.2 =
        sc + rc * 15 * (2 ^ ((sweepAux fuel arena y rc cl sc).2.1 - cl) - 1) := by
  intro fuel
  induction fuel with
  | zero => intro arena y rc cl sc; simp [sweepAux]
  | succ f ih =>
    intro arena y rc cl sc
    by_cases hy : y = 0
    · simp [sweepAux, hy]
    · by_cases hfull : fullRow (arena[y]?.getD []) = true
      · have heq : sweepAux (f + 1) arena y rc cl sc
            = sweepAux f (clearAt arena y) y (rc * 2) (cl + 1) (sc + rc * 15) := by
          simp [sweepAux, hy, hfull]
        obtain ⟨h1, h2⟩ := ih (clearAt arena y) y (rc * 2) (cl + 1) (sc + rc * 15)
        rw [heq]
        refine ⟨by omega, ?_⟩
        rw [h2]
        have hd : (sweepAux f (clearAt arena y) y (rc * 2) (cl + 1) (sc + rc * 15)).2.1 - cl
            = ((sweepAux f (clearAt arena y) y (rc * 2) (cl + 1) (sc + rc * 15)).2.1 - (cl + 1)) + 1 := by
          omega
        rw [hd, ← cascade_step]
        ring
      · have heq : sweepAux (f + 1) arena y rc cl sc = sweepAux f arena (y - 1) rc cl sc := by
          simp [sweepAux, hy, hfull]
        rw [heq]
        exact ih arena (y - 1) rc cl sc

theorem cascade_closed_form (k : Nat) :
    15 * (2 ^ k - 1) = ∑ i in Finset.Icc 1 k, 15 * 2 ^ (i - 1) := by
  induction k with
  | zero => simp
  | succ n ih =>
    rw [Finset.sum_Icc_succ_top (by omega), ← ih]
    have h1 : 1 ≤ 2 ^ n := Nat.one_le_two_pow
    have hp : 2 ^ (n + 1) = 2 * 2 ^ n := by rw [pow_succ]; ring
    simp only [Nat.add_sub_cancel]
    omega

/-- **C3**.  In any single `sweep` pass that clears `k` rows, the score added
is `∑ i = 1..k, 15 * 2^(i-1)` (first row 15, second 30, third 60, …); in
particular a pass clearing 3 rows adds exactly 105 points. -/
theorem sweep_cascade_score :
    (∀ arena : List (List Nat),
        (sweepRun arena).2.2 = ∑ i in Finset.Icc 1 (sweepRun arena).2.1, 15 * 2 ^ (i - 1)) ∧
    (sweepRun [[0, 0], [1, 1], [2, 2], [3, 3]]).2.1 = 3 ∧
    (sweepRun [[0, 0], [1, 1], [2, 2], [3, 3]]).2.2 = 105 := by
  refine ⟨?_, by decide, by decide⟩
  intro arena
  have hrun : sweepRun arena
      = sweepAux (2 * arena.length + 1) arena (arena.length - 1) 1 0 0 := rfl
  have h := (sweepAux_cleared_score (2 * arena.length + 1) arena (arena.length - 1) 1 0 0).2
  rw [hrun, h]
  simp [cascade_closed_form]

/-! ## C7: rotating four times is the identity -/

theorem getD_of_lt {α : Type} (l : List α) (d : α) (i : Nat) (h : i < l.length) :
    l.getD i d = l[i] := by
  rw [List.getD_eq_getElem?_getD, List.getElem?_eq_getElem h]
  rfl

theorem headD_length_of_rect (L : List (List Nat)) (w : Nat) (hL : 0 < L.length)
    (hrect : ∀ r ∈ L, r.length = w) : (L.headD []).length = w := by
  cases L with
  | nil => simp at hL
  | cons a t => exact hrect a (List.mem_cons_self a t)

theorem rotate_length (m : List (List Nat)) : (rotate m).length = (m.headD []).length := by
  simp [rotate]

theorem rotate_mem_length (m : List (List Nat)) (r : List Nat) (hr : r ∈ rotate m) :
    r.length = m.length := by
  simp only [rotate, List.mem_reverse, List.mem_map, List.mem_range] at hr
  obtain ⟨i, _, rfl⟩ := hr
  simp

theorem rotate_getElemD (m : List (List Nat)) (n : Nat) (hn : (m.headD []).length = n)
    (i : Nat) (hi : i < n) (j : Nat) (hj : j < m.length) :
    ((rotate m).getD i []).getD j 0 = (m.getD j []).getD (n - 1 - i) 0 := by
  have hlen : (rotate m).length = n := by rw [rotate_length, hn]
  have hi' : i < (rotate m).length := by omega
  have hrow : (rotate m).getD i [] = m.map fun row => row.getD (n - 1 - i) 0 := by
    rw [getD_of_lt _ _ _ hi']
    simp only [rotate, hn]
    rw [List.getElem_reverse]
    simp only [List.length_map, List.length_range]
    rw [List.getElem_map]
    simp
  rw [hrow, getD_of_lt _ _ _ (by simpa using hj), List.getElem_map,
    getD_of_lt _ _ _ hj]

theorem ext_rectD (L1 L2 : List (List Nat)) (hlen : L1.length = L2.length)
    (hrows : ∀ i, i < L1.length → (L1.getD i []).length = (L2.getD i []).length)
    (hcells : ∀ i j, i < L1.length → j < (L1.getD i []).length →
      (L1.getD i []).getD j 0 = (L2.getD i []).getD j 0) : L1 = L2 := by
  apply List.ext_getElem hlen
  intro i h1 h2
  apply List.ext_getElem
  · have hr := hrows i h1
    rwa [getD_of_lt _ _ _ h1, getD_of_lt _ _ _ h2] at hr
  · intro j hj1 hj2
    have hc := hcells i j h1 (by rwa [getD_of_lt _ _ _ h1])
    rwa [getD_of_lt _ _ _ h1, getD_of_lt _ _ _ h2, getD_of_lt _ _ _ hj1,
      getD_of_lt _ _ _ hj2] at hc

theorem getD_length_of_rect (L : List (List Nat)) (w : Nat) (i : Nat)
    (hi : i < L.length) (hrect : ∀ r ∈ L, r.length = w) : (L.getD i []).length = w := by
  rw [getD_of_lt _ _ _ hi]
  exact hrect _ (L.getElem_mem hi)

/-- **C7**.  For every non-empty rectangular shape matrix, four applications
of `rotate` return a matrix equal cell-for-cell to the original.  (The source
`rotate` builds its result from `map` and `reverse` without touching its
argument, which this pure embedding reflects.) -/
theorem rotate_four_times (m : List (List Nat)) (n : Nat) (hn : 0 < n)
    (hm : 0 < m.length) (hrect : ∀ r ∈ m, r.length = n) :
    rotate (rotate (rotate (rotate m))) = m := by
  have hhead : (m.headD []).length = n := headD_length_of_rect m n hm hrect
  have hlen1 : (rotate m).length = n := by rw [rotate_length, hhead]
  have hrect1 : ∀ r ∈ rotate m, r.length = m.length := rotate_mem_length m
  have hhead1 : ((rotate m).headD []).length = m.length :=
    headD_length_of_rect _ _ (by omega) hrect1
  have hlen2 : (rotate (rotate m)).length = m.length := by rw [rotate_length, hhead1]
  have hrect2 : ∀ r ∈ rotate (rotate m), r.length = n := by
    intro r hr
    rw [rotate_mem_length _ _ hr, hlen1]
  have hhead2 : ((rotate (rotate m)).headD []).length = n :=
    headD_length_of_rect _ _ (by omega) hrect2
  have hlen3 : (rotate (rotate (rotate m))).length = n := by rw [rotate_length, hhead2]
  have hrect3 : ∀ r ∈ rotate (rotate (rotate m)), r.length = m.length := by
    intro r hr
    rw [rotate_mem_length _ _ hr, hlen2]
  have hhead3 : ((rotate (rotate (rotate m))).headD []).length = m.length :=
    headD_length_of_rect _ _ (by omega) hrect3
  have hlen4 : (rotate (rotate (rotate (rotate m)))).length = m.length := by
    rw [rotate_length, hhead3]
  have hrect4 : ∀ r ∈ rotate (rotate (rotate (rotate m))), r.length = n := by
    intro r hr
    rw [rotate_mem_length _ _ hr, hlen3]
  apply ext_rectD _ _ (by omega)
  · intro i hi
    rw [getD_length_of_rect _ n i hi hrect4,
      getD_length_of_rect _ n i (by omega) hrect]
  · intro i j hi hj
    have hiM : i < m.length := by omega
    have hjn : j < n := by
      rwa [getD_length_of_rect _ n i hi hrect4] at hj
    have e4 := rotate_getElemD (rotate (rotate (rotate m))) m.length hhead3 i hiM j
      (by omega)
    have e3 := rotate_getElemD (rotate (rotate m)) n hhead2 j hjn (m.length - 1 - i)
      (by omega)
    have e2 := rotate_getElemD (rotate m) m.length hhead1 (m.length - 1 - i)
      (by omega) (n - 1 - j) (by omega)
    have e1 := rotate_getElemD m n hhead (n - 1 - j) (by omega) i hiM
    rw [e4, e3, e2, show m.length - 1 - (m.length - 1 - i) = i by omega, e1,
      show n - 1 - (n - 1 - j) = j by omega]

/-- Witness for `rotate_four_times`: the J-tetromino returns to itself after
four rotations. -/
theorem rotate_four_times_witness :
    rotate (rotate (rotate (rotate [[2, 0, 0], [2, 2, 2]]))) = [[2, 0, 0], [2, 2, 2]] :=
  rotate_four_times [[2, 0, 0], [2, 2, 2]] 3 (by decide) (by decide) (by decide)

/-! ## C6: the gravity tick / soft-drop transition -/

/-- **C6**.  While running (`gameOver = false`), a drop first moves the piece
one row down.  If the moved piece does not collide, the state changes only by
that row increment.  If it collides, the piece is merged into the board at its
pre-move position, `sweep` runs on the merged board, the cascade score is
added, a fresh centered piece is spawned at row 0, and `gameOver` becomes
`true` exactly when that fresh piece collides with the swept board. -/
theorem playerDrop_step (idx : Nat) (s : GameState) (h : s.gameOver = false) :
    (collide s.arena { s.player with pos := { s.player.pos with y := s.player.pos.y + 1 } } = false →
      playerDrop idx s =
        { s with player := { s.player with pos := { s.player.pos with y := s.player.pos.y + 1 } } }) ∧
    (collide s.arena { s.player with pos := { s.player.pos with y := s.player.pos.y + 1 } } = true →
      (playerDrop idx s).arena = (sweepRun (merge s.arena s.player)).1 ∧
      (playerDrop idx s).score = s.score + (sweepRun (merge s.arena s.player)).2.2 ∧
      (playerDrop idx s).player =
        { matrix := shapes.getD idx [],
          pos := { x := ((COLS / 2 : Nat) : Int) -
            ((((shapes.getD idx []).headD []).length / 2 : Nat) : Int), y := 0 } } ∧
      ((playerDrop idx s).gameOver = true ↔
        collide (sweepRun (merge s.arena s.player)).1
          { matrix := shapes.getD idx [],
            pos := { x := ((COLS / 2 : Nat) : Int) -
              ((((shapes.getD idx []).headD []).length / 2 : Nat) : Int), y := 0 } } = true)) := by
  obtain ⟨ar, ⟨⟨px, py⟩, mat⟩, sc, go⟩ := s
  simp only at h
  subst h
  constructor
  · intro hc
    simp [playerDrop, hc]
  · intro hc
    simp only [playerDrop, Bool.false_eq_true, if_false, hc, if_true,
      add_sub_cancel_right, playerResetOn]
    split
    · rename_i hspawn
      refine ⟨rfl, rfl, rfl, ?_⟩
      simpa using hspawn
    · rename_i hspawn
      refine ⟨rfl, rfl, rfl, ?_⟩
      simpa using hspawn

/-- Witness for `playerDrop_step`: dropping in `lockDemoState` locks the
piece in place, and the fresh I-piece (centered at column 3, outside the
2-wide board) makes the spawn collide, so the game ends. -/
theorem playerDrop_step_witness :
    (playerDrop 1 lockDemoState).arena = [[0, 0], [9, 0]] ∧
    (playerDrop 1 lockDemoState).gameOver = true := by
  have h := (playerDrop_step 1 lockDemoState rfl).2 (by decide)
  constructor
  · rw [h.1]; decide
  · rw [h.2.2.2]; decide

/-! ## C10: the frame property of `merge` -/

theorem setCell_length (arena : List (List Nat)) (r c : Int) (v : Nat) :
    (setCell arena r c v).length = arena.length := by
  unfold setCell
  split <;> simp

theorem setCell_getD_length (arena : List (List Nat)) (r c : Int) (v : Nat) (i : Nat) :
    ((setCell arena r c v).getD i []).length = (arena.getD i []).length := by
  unfold setCell
  split
  · by_cases hi : r.toNat = i
    · subst hi
      by_cases hlt : r.toNat < arena.length
      · rw [List.getD_eq_getElem?_getD, List.getElem?_set_self hlt,
          List.getD_eq_getElem?_getD (l := arena)]
        simp
      · rw [List.set_eq_of_length_le (by omega)]
    · rw [List.getD_eq_getElem?_getD, List.getElem?_set_ne hi,
        List.getD_eq_getElem?_getD (l := arena)]
  · rfl

theorem getCell?_setCell_same (arena : List (List Nat)) (r c : Int) (v : Nat)
    (hr0 : 0 ≤ r) (hc0 : 0 ≤ c) (hr : r.toNat < arena.length)
    (hc : c.toNat < (arena.getD r.toNat []).length) :
    getCell? (setCell arena r c v) r c = some v := by
  unfold setCell
  rw [if_pos ⟨hr0, hc0⟩]
  unfold getCell? elemAt?
  rw [if_pos hr0, List.getElem?_set_self hr]
  simp only [Option.some.injEq]
  rw [if_pos hc0, List.getElem?_set_self hc]

theorem getCell?_setCell_ne (arena : List (List Nat)) (r c : Int) (v : Nat)
    (r' c' : Int) (hne : r' ≠ r ∨ c' ≠ c) :
    getCell? (setCell arena r c v) r' c' = getCell? arena r' c' := by
  unfold setCell
  split
  · rename_i hpos
    obtain ⟨hr0, hc0⟩ := hpos
    by_cases hr' : (0 : Int) ≤ r'
    · by_cases hrr : r' = r
      · subst hrr
        rcases hne with hne | hne
        · exact absurd rfl hne
        · by_cases hrlt : r'.toNat < arena.length
          · have hrow : arena.getD r'.toNat [] = arena[r'.toNat] :=
              getD_of_lt _ _ _ hrlt
            by_cases hcc : (0 : Int) ≤ c'
            · have hcne : c.toNat ≠ c'.toNat := by omega
              simp [getCell?, elemAt?, hr', hcc, List.getElem?_set_self hrlt,
                List.getElem?_eq_getElem hrlt, List.getElem?_set_ne hcne, hrow]
            · simp [getCell?, elemAt?, hr', hcc, List.getElem?_set_self hrlt,
                List.getElem?_eq_getElem hrlt]
          · rw [List.set_eq_of_length_le (by omega)]
      · have hcne : r.toNat ≠ r'.toNat := by omega
        simp [getCell?, elemAt?, hr', List.getElem?_set_ne hcne]
    · simp [getCell?, elemAt?, hr']
  · rfl

theorem writeRowAux_length (r px : Int) :
    ∀ (row : List Nat) (x0 : Nat) (arena : List (List Nat)),
      (writeRowAux r px row x0 arena).length = arena.length := by
  intro row
  induction row with
  | nil => intro x0 arena; rfl
  | cons v rest ih =>
    intro x0 arena
    unfold writeRowAux
    rw [ih]
    split
    · rw [setCell_length]
    · rfl

theorem writeRowAux_getD_length (r px : Int) :
    ∀ (row : List Nat) (x0 : Nat) (arena : List (List Nat)) (i : Nat),
      ((writeRowAux r px row x0 arena).getD i []).length = (arena.getD i []).length := by
  intro row
  induction row with
  | nil => intro x0 arena i; rfl
  | cons v rest ih =>
    intro x0 arena i
    unfold writeRowAux
    rw [ih]
    split
    · rw [setCell_getD_length]
    · rfl

theorem writeRowAux_frame (r px : Int) :
    ∀ (row : List Nat) (x0 : Nat) (arena : List (List Nat)) (r' c' : Int),
      (r' ≠ r ∨ ∀ j, j < row.length → row.getD j 0 ≠ 0 →
        c' ≠ ((x0 + j : Nat) : Int) + px) →
      getCell? (writeRowAux r px row x0 arena) r' c' = getCell? arena r' c' := by
  intro row
  induction row with
  | nil => intro x0 arena r' c' _; rfl
  | cons v rest ih =>
    intro x0 arena r' c' h
    unfold writeRowAux
    rw [ih (x0 + 1) _ r' c' ?_]
    · split
      · rename_i hv
        apply getCell?_setCell_ne
        rcases h with h | h
        · exact Or.inl h
        · refine Or.inr ?_
          have := h 0 (by simp) (by simpa using hv)
          simpa using this
      · rfl
    · rcases h with h | h
      · exact Or.inl h
      · refine Or.inr ?_
        intro j hj hval
        have := h (j + 1) (by simpa using hj) (by simpa using hval)
        have harith : ((x0 + (j + 1) : Nat) : Int) = ((x0 + 1 + j : Nat) : Int) := by
          push_cast
          ring
        rw [harith] at this
        exact this

theorem writeRowAux_write (r px : Int) :
    ∀ (row : List Nat) (x0 : Nat) (arena : List (List Nat)) (j : Nat),
      j < row.length → row.getD j 0 ≠ 0 →
      0 ≤ r → r.toNat < arena.length →
      0 ≤ ((x0 + j : Nat) : Int) + px →
      (((x0 + j : Nat) : Int) + px).toNat < (arena.getD r.toNat []).length →
      getCell? (writeRowAux r px row x0 arena) r (((x0 + j : Nat) : Int) + px)
        = some (row.getD j 0) := by
  intro row
  induction row with
  | nil => intro x0 arena j hj; simp at hj
  | cons v rest ih =>
    intro x0 arena j hj hval hr0 hrlt hc0 hclt
    cases j with
    | zero =>
      have hv : v ≠ 0 := by simpa using hval
      unfold writeRowAux
      rw [if_pos hv]
      have hx0 : ((x0 + 0 : Nat) : Int) = (x0 : Int) := by push_cast; ring
      rw [writeRowAux_frame r px rest (x0 + 1) _ r (((x0 + 0 : Nat) : Int) + px) ?_]
      · rw [hx0]
        rw [getCell?_setCell_same _ _ _ _ hr0 (by rwa [hx0] at hc0) hrlt
          (by rw [hx0] at hclt; omega)]
        rfl
      · refine Or.inr ?_
        intro j' _ _
        rw [hx0]
        intro hcontra
        have : (x0 : Int) = ((x0 + 1 + j' : Nat) : Int) := by omega
        push_cast at this
        omega
    | succ j' =>
      have hj' : j' < rest.length := by simpa using hj
      have hval' : rest.getD j' 0 ≠ 0 := by simpa using hval
      unfold writeRowAux
      have harith : ((x0 + (j' + 1) : Nat) : Int) = ((x0 + 1 + j' : Nat) : Int) := by
        push_cast
        ring
      have hres : ((v :: rest).getD (j' + 1) 0) = rest.getD j' 0 := rfl
      rw [hres, harith]
      split
      · rename_i hv
        apply ih (x0 + 1) _ j' hj' hval' hr0 (by rwa [setCell_length])
          (by rwa [← harith]) ?_
        rw [setCell_getD_length]
        rw [harith] at hclt
        exact hclt
      · exact ih (x0 + 1) _ j' hj' hval' hr0 hrlt (by rwa [← harith])
          (by rw [harith] at hclt; exact hclt)

theorem mergeAux_length (py px : Int) :
    ∀ (rows : List (List Nat)) (y0 : Nat) (arena : List (List Nat)),
      (mergeAux py px rows y0 arena).length = arena.length := by
  intro rows
  induction rows with
  | nil => intro y0 arena; rfl
  | cons row rest ih =>
    intro y0 arena
    unfold mergeAux
    rw [ih, writeRowAux_length]

theorem mergeAux_getD_length (py px : Int) :
    ∀ (rows : List (List Nat)) (y0 : Nat) (arena : List (List Nat)) (i : Nat),
      ((mergeAux py px rows y0 arena).getD i []).length = (arena.getD i []).length := by
  intro rows
  induction rows with
  | nil => intro y0 arena i; rfl
  | cons row rest ih =>
    intro y0 arena i
    unfold mergeAux
    rw [ih, writeRowAux_getD_length]

theorem mergeAux_frame (py px : Int) :
    ∀ (rows : List (List Nat)) (y0 : Nat) (arena : List (List Nat)) (r' c' : Int),
      (∀ y j, y < rows.length → j < (rows.getD y []).length →
        (rows.getD y []).getD j 0 ≠ 0 →
        ¬(r' = ((y0 + y : Nat) : Int) + py ∧ c' = (j : Int) + px)) →
      getCell? (mergeAux py px rows y0 arena) r' c' = getCell? arena r' c' := by
  intro rows
  induction rows with
  | nil => intro y0 arena r' c' _; rfl
  | cons row rest ih =>
    intro y0 arena r' c' h
    unfold mergeAux
    rw [ih (y0 + 1) _ r' c' ?_]
    · apply writeRowAux_frame
      by_cases hr : r' = ((y0 : Nat) : Int) + py
      · refine Or.inr ?_
        intro j hj hval hc
        exact h 0 j (by simp) (by simpa using hj) (by simpa using hval)
          ⟨by simpa using hr, by simpa using hc⟩
      · exact Or.inl hr
    · intro y j hy hj hval hpair
      refine h (y + 1) j (by simpa using hy) (by simpa using hj)
        (by simpa using hval) ?_
      obtain ⟨h1, h2⟩ := hpair
      refine ⟨?_, h2⟩
      rw [h1]
      congr 1
      push_cast
      ring

theorem mergeAux_write (py px : Int) :
    ∀ (rows : List (List Nat)) (y0 : Nat) (arena : List (List Nat)) (y j : Nat),
      y < rows.length → j < (rows.getD y []).length →
      (rows.getD y []).getD j 0 ≠ 0 →
      0 ≤ ((y0 + y : Nat) : Int) + py →
      (((y0 + y : Nat) : Int) + py).toNat < arena.length →
      0 ≤ (j : Int) + px →
      ((j : Int) + px).toNat < (arena.getD (((y0 + y : Nat) : Int) + py).toNat []).length →
      getCell? (mergeAux py px rows y0 arena) (((y0 + y : Nat) : Int) + py) ((j : Int) + px)
        = some ((rows.getD y []).getD j 0) := by
  intro rows
  induction rows with
  | nil => intro y0 arena y j hy; simp at hy
  | cons row rest ih =>
    intro y0 arena y j hy hj hval hr0 hrlt hc0 hclt
    cases y with
    | zero =>
      have hcoord : (((y0 + 0 : Nat) : Int) + py) = (((y0 : Nat) : Int) + py) := by
        norm_num
      rw [hcoord] at hr0 hrlt hclt ⊢
      unfold mergeAux
      rw [mergeAux_frame py px rest (y0 + 1) _ _ _ ?_]
      · have hjx : ((0 + j : Nat) : Int) = (j : Int) := by norm_num
        have hw := writeRowAux_write (((y0 : Nat) : Int) + py) px row 0 arena j
          (by simpa using hj) (by simpa using hval) hr0 hrlt
          (by rwa [hjx]) (by rwa [hjx])
        rw [hjx] at hw
        simpa using hw
      · intro y' j' hy' hj' hval' hpair
        obtain ⟨h1, _⟩ := hpair
        have : ((y0 : Nat) : Int) = ((y0 + 1 + y' : Nat) : Int) := by omega
        push_cast at this
        omega
    | succ y' =>
      have hcoord : ((y0 + (y' + 1) : Nat) : Int) = ((y0 + 1 + y' : Nat) : Int) := by
        push_cast
        ring
      have hy2 : y' < rest.length := by simpa using hy
      have hj2 : j < (rest.getD y' []).length := by simpa using hj
      have hval2 : (rest.getD y' []).getD j 0 ≠ 0 := by simpa using hval
      unfold mergeAux
      have hres : (row :: rest).getD (y' + 1) [] = rest.getD y' [] := rfl
      rw [hres]
      have := ih (y0 + 1) (writeRowAux (((y0 : Nat) : Int) + py) px row 0 arena) y' j
        hy2 hj2 hval2 (by rwa [hcoord] at hr0)
        (by rw [writeRowAux_length]; rwa [hcoord] at hrlt) hc0
        (by rw [writeRowAux_getD_length]; rwa [hcoord] at hclt)
      rw [show (((y0 + (y' + 1) : Nat) : Int) + py) = (((y0 + 1 + y' : Nat) : Int) + py) from by rw [hcoord]]
      exact this

/-- **C10**.  If every non-zero cell of the piece's shape maps inside the
board, then `merge` (i) keeps the board's dimensions, (ii) sets the cell at
the absolute coordinates of each non-zero shape cell to that cell's value,
and (iii) leaves every board cell that is not under a non-zero shape cell
unchanged. -/
theorem merge_frame (arena : List (List Nat)) (p : Player)
    (hin : ∀ y, y < p.matrix.length → ∀ x, x < (p.matrix.getD y []).length →
      (p.matrix.getD y []).getD x 0 ≠ 0 →
      0 ≤ (y : Int) + p.pos.y ∧ ((y : Int) + p.pos.y).toNat < arena.length ∧
      0 ≤ (x : Int) + p.pos.x ∧
      ((x : Int) + p.pos.x).toNat < (arena.getD ((y : Int) + p.pos.y).toNat []).length) :
    (merge arena p).length = arena.length ∧
    (∀ i, ((merge arena p).getD i []).length = (arena.getD i []).length) ∧
    (∀ y, y < p.matrix.length → ∀ x, x < (p.matrix.getD y []).length →
      (p.matrix.getD y []).getD x 0 ≠ 0 →
      getCell? (merge arena p) ((y : Int) + p.pos.y) ((x : Int) + p.pos.x)
        = some ((p.matrix.getD y []).getD x 0)) ∧
    (∀ r c : Int,
      (∀ y, y < p.matrix.length → ∀ x, x < (p.matrix.getD y []).length →
        (p.matrix.getD y []).getD x 0 ≠ 0 →
        ¬(r = (y : Int) + p.pos.y ∧ c = (x : Int) + p.pos.x)) →
      getCell? (merge arena p) r c = getCell? arena r c) := by
  refine ⟨mergeAux_length _ _ _ _ _, fun i => mergeAux_getD_length _ _ _ _ _ i, ?_, ?_⟩
  · intro y hy x hx hval
    obtain ⟨b1, b2, b3, b4⟩ := hin y hy x hx hval
    have hc : (((0 + y : Nat) : Int) + p.pos.y) = ((y : Int) + p.pos.y) := by
      norm_num
    have h := mergeAux_write p.pos.y p.pos.x p.matrix 0 arena y x hy hx hval
      (by rwa [hc]) (by rwa [hc]) b3 (by rwa [hc])
    rw [hc] at h
    exact h
  · intro r c h
    apply mergeAux_frame
    intro y j hy hj hval hpair
    obtain ⟨h1, h2⟩ := hpair
    refine h y hy j hj hval ⟨?_, h2⟩
    rw [h1]
    congr 1
    norm_num

/-- Witness for `merge_frame`: merging a 2×2 diagonal piece at the origin of
an empty 2×2 board writes the covered diagonal and leaves the off-diagonal
cells as they were. -/
theorem merge_frame_witness :
    getCell? (merge [[0, 0], [0, 0]] { pos := ⟨0, 0⟩, matrix := [[1, 0], [0, 1]] }) 0 0
      = some 1 ∧
    getCell? (merge [[0, 0], [0, 0]] { pos := ⟨0, 0⟩, matrix := [[1, 0], [0, 1]] }) 0 1
      = getCell? [[0, 0], [0, 0]] 0 1 := by
  have h := merge_frame [[0, 0], [0, 0]] { pos := ⟨0, 0⟩, matrix := [[1, 0], [0, 1]] }
    (by decide)
  constructor
  · have h1 := h.2.2.1 0 (by decide) 0 (by decide) (by decide)
    simpa using h1
  · have h2 := h.2.2.2 0 1 (by decide)
    exact h2

/-! ## C4: what one `sweep` call does to the board -/

theorem fullRow_replicate_zero (w : Nat) (hw : 0 < w) :
    fullRow (List.replicate w 0) = false := by
  cases w with
  | zero => omega
  | succ n => simp [fullRow, List.replicate_succ]

theorem prod3_ext {α β γ : Type} {b1 b2 : α} {n1 n2 : β} {s1 s2 : γ}
    (h1 : b1 = b2) (h2 : n1 = n2) (h3 : s1 = s2) : (b1, n1, s1) = (b2, n2, s2) := by
  subst h1
  subst h2
  subst h3
  rfl

/-- Loop invariant of the `sweep` scan: processing the prefix `take (y+1)`
(rows `0..y`) clears exactly the rows `sweepSurviving` discards from that
prefix, pushes that many zero rows on top, and leaves the already-scanned
suffix `drop (y+1)` untouched. -/
theorem sweepAux_spec (w : Nat) (hw : 0 < w) :
    ∀ (fuel : Nat) (arena : List (List Nat)) (y rc cl sc : Nat),
      (∀ r ∈ arena, r.length = w) → y < arena.length →
      1 + y + (arena.take (y + 1)).countP fullRow ≤ fuel →
      sweepAux fuel arena y rc cl sc =
        (List.replicate (sweepClears (arena.take (y + 1))) (List.replicate w 0)
            ++ sweepSurviving (arena.take (y + 1)) ++ arena.drop (y + 1),
          cl + sweepClears (arena.take (y + 1)),
          sc + rc * 15 * (2 ^ sweepClears (arena.take (y + 1)) - 1)) := by
  intro fuel
  induction fuel with
  | zero => intro arena y rc cl sc _ _ hfuel; omega
  | succ f ih =>
    intro arena y rc cl sc hrect hy hfuel
    by_cases hy0 : y = 0
    · subst hy0
      obtain ⟨a, t, rfl⟩ : ∃ a t, arena = a :: t := by
        cases arena with
        | nil => simp at hy
        | cons a t => exact ⟨a, t, rfl⟩
      simp [sweepAux, sweepSurviving, sweepClears]
    · have hrowY : arena.getD y [] = arena[y] := getD_of_lt _ _ _ hy
      have htake : arena.take (y + 1) = arena.take y ++ [arena[y]] := by
        rw [List.take_succ, List.getElem?_eq_getElem hy]
        rfl
      have hTlen : (arena.take y).length = y := by
        rw [List.length_take]
        omega
      have hTfilter : ((arena.take y).filter fun r => !fullRow r).length ≤ y := by
        calc ((arena.take y).filter fun r => !fullRow r).length
            ≤ (arena.take y).length := List.length_filter_le _ _
          _ = y := hTlen
      by_cases hfull : fullRow (arena.getD y []) = true
      · -- row y is full: clear it and rescan the same index
        have hfullR : fullRow arena[y] = true := by rwa [hrowY] at hfull
        have hfull' : fullRow (arena[y]?.getD []) = true := by
          rwa [← List.getD_eq_getElem?_getD]
        have heq : sweepAux (f + 1) arena y rc cl sc
            = sweepAux f (clearAt arena y) y (rc * 2) (cl + 1) (sc + rc * 15) := by
          simp [sweepAux, hy0, hfull']
        have hZ : (arena.getD y []).map (fun _ => (0 : Nat)) = List.replicate w 0 := by
          rw [List.map_const', getD_length_of_rect _ w y hy hrect]
        have hclear : clearAt arena y
            = List.replicate w 0 :: (arena.take y ++ arena.drop (y + 1)) := by
          unfold clearAt
          rw [hZ, List.eraseIdx_eq_take_drop_succ]
        have hZfull : fullRow (List.replicate w 0) = false := fullRow_replicate_zero w hw
        have hlen' : (clearAt arena y).length = arena.length := by
          rw [hclear]
          simp only [List.length_cons, List.length_append, List.length_take,
            List.length_drop]
          omega
        have hrect' : ∀ r ∈ clearAt arena y, r.length = w := by
          rw [hclear]
          intro r hr
          rcases List.mem_cons.1 hr with rfl | hr
          · simp
          · rcases List.mem_append.1 hr with hr | hr
            · exact hrect r (List.mem_of_mem_take hr)
            · exact hrect r (List.mem_of_mem_drop hr)
        have hy' : y < (clearAt arena y).length := by omega
        have htake' : (clearAt arena y).take (y + 1)
            = List.replicate w 0 :: arena.take y := by
          rw [hclear, List.take_succ_cons, List.take_left' hTlen]
        have hdrop' : (clearAt arena y).drop (y + 1) = arena.drop (y + 1) := by
          rw [hclear, List.drop_succ_cons, List.drop_left' hTlen]
        have hcF : (arena.take (y + 1)).countP fullRow
            = (arena.take y).countP fullRow + 1 := by
          rw [htake, List.countP_append]
          simp [List.countP_cons, hfullR]
        have hcF' : ((clearAt arena y).take (y + 1)).countP fullRow
            = (arena.take y).countP fullRow := by
          rw [htake', List.countP_cons, hZfull]
          simp
        have hfuel' : 1 + y + ((clearAt arena y).take (y + 1)).countP fullRow ≤ f := by
          omega
        rw [heq, ih (clearAt arena y) y (rc * 2) (cl + 1) (sc + rc * 15) hrect' hy' hfuel',
          htake', hdrop', htake]
        have hdropT : (List.replicate w 0 :: arena.take y).drop 1 = arena.take y := rfl
        have hdropF : ((arena.take y ++ [arena[y]])).drop 1
            = (arena.take y).drop 1 ++ [arena[y]] :=
          List.drop_append_of_le_length (by omega)
        have hanyF : (((arena.take y ++ [arena[y]])).drop 1).any fullRow = true := by
          rw [hdropF, List.any_append]
          simp [hfullR]
        by_cases hanyT : (arena.take y).any fullRow = true
        · -- some other full row remains in the unscanned prefix
          have hsurvZ : sweepSurviving (List.replicate w 0 :: arena.take y)
              = List.replicate w 0 :: ((arena.take y).filter fun r => !fullRow r) := by
            unfold sweepSurviving
            rw [hdropT, if_pos hanyT]
            rw [List.filter_cons]
            simp [hZfull]
          have hsurvF : sweepSurviving (arena.take y ++ [arena[y]])
              = (arena.take y).filter fun r => !fullRow r := by
            unfold sweepSurviving
            rw [if_pos hanyF, List.filter_append]
            simp [hfullR]
          have hkZ : sweepClears (List.replicate w 0 :: arena.take y)
              = y - ((arena.take y).filter fun r => !fullRow r).length := by
            unfold sweepClears
            rw [hsurvZ]
            simp only [List.length_cons, hTlen]
            omega
          have hkF : sweepClears (arena.take y ++ [arena[y]])
              = (y - ((arena.take y).filter fun r => !fullRow r).length) + 1 := by
            unfold sweepClears
            rw [hsurvF]
            simp only [List.length_append, List.length_cons, hTlen, List.length_nil]
            omega
          rw [hsurvZ, hsurvF, hkZ, hkF]
          refine prod3_ext ?_ (by omega) ?_
          · rw [List.replicate_succ']
            simp [List.append_assoc]
          · rw [← cascade_step]
            ring
        · -- row y was the only remaining full row
          have hanyT' : (arena.take y).any fullRow = false := by
            simpa using hanyT
          have hfilterT : ((arena.take y).filter fun r => !fullRow r) = arena.take y := by
            rw [List.filter_eq_self]
            intro a ha
            have := List.any_eq_false.1 hanyT' a ha
            simpa using this
          have hsurvZ : sweepSurviving (List.replicate w 0 :: arena.take y)
              = List.replicate w 0 :: arena.take y := by
            unfold sweepSurviving
            rw [hdropT, if_neg (by simp [hanyT'])]
          have hsurvF : sweepSurviving (arena.take y ++ [arena[y]])
              = (arena.take y) := by
            unfold sweepSurviving
            rw [if_pos hanyF, List.filter_append, hfilterT]
            simp [hfullR]
          have hkZ : sweepClears (List.replicate w 0 :: arena.take y) = 0 := by
            unfold sweepClears
            rw [hsurvZ]
            omega
          have hkF : sweepClears (arena.take y ++ [arena[y]]) = 1 := by
            unfold sweepClears
            rw [hsurvF]
            simp only [List.length_append, List.length_cons, hTlen, List.length_nil]
            omega
          rw [hsurvZ, hsurvF, hkZ, hkF]
          refine prod3_ext (by simp) (by omega) (by norm_num)
      · -- row y is not full: step to row y - 1
        have hfullR : fullRow arena[y] = false := by
          rw [hrowY] at hfull
          simpa using hfull
        have hfull' : fullRow (arena[y]?.getD []) = false := by
          rw [← List.getD_eq_getElem?_getD, hrowY]
          exact hfullR
        obtain ⟨z, rfl⟩ : ∃ z, y = z + 1 := ⟨y - 1, by omega⟩
        have heq : sweepAux (f + 1) arena (z + 1) rc cl sc
            = sweepAux f arena z rc cl sc := by
          simp [sweepAux, hy0, hfull']
        have hcF : (arena.take (z + 1 + 1)).countP fullRow
            = (arena.take (z + 1)).countP fullRow := by
          rw [htake, List.countP_append]
          simp [List.countP_cons, hfullR]
        have hfuel' : 1 + z + (arena.take (z + 1)).countP fullRow ≤ f := by
          omega
        rw [heq, ih arena z rc cl sc hrect (by omega) hfuel', htake]
        have hdropz : arena.drop (z + 1) = arena[z + 1] :: arena.drop (z + 1 + 1) :=
          List.drop_eq_getElem_cons hy
        have hdropF : ((arena.take (z + 1) ++ [arena[z + 1]])).drop 1
            = (arena.take (z + 1)).drop 1 ++ [arena[z + 1]] :=
          List.drop_append_of_le_length (by omega)
        have hanyFG : (((arena.take (z + 1) ++ [arena[z + 1]])).drop 1).any fullRow
            = ((arena.take (z + 1)).drop 1).any fullRow := by
          rw [hdropF, List.any_append]
          simp [hfullR]
        by_cases hanyG : ((arena.take (z + 1)).drop 1).any fullRow = true
        · have hsurvG : sweepSurviving (arena.take (z + 1))
              = (arena.take (z + 1)).filter fun r => !fullRow r := by
            unfold sweepSurviving
            rw [if_pos hanyG]
          have hsurvF : sweepSurviving (arena.take (z + 1) ++ [arena[z + 1]])
              = ((arena.take (z + 1)).filter fun r => !fullRow r) ++ [arena[z + 1]] := by
            unfold sweepSurviving
            rw [if_pos (by rw [hanyFG]; exact hanyG), List.filter_append]
            simp [hfullR]
          have hkG : sweepClears (arena.take (z + 1))
              = (z + 1) - ((arena.take (z + 1)).filter fun r => !fullRow r).length := by
            unfold sweepClears
            rw [hsurvG, hTlen]
          have hkF : sweepClears (arena.take (z + 1) ++ [arena[z + 1]])
              = (z + 1) - ((arena.take (z + 1)).filter fun r => !fullRow r).length := by
            unfold sweepClears
            rw [hsurvF]
            simp only [List.length_append, List.length_cons, hTlen, List.length_nil]
            omega
          rw [hsurvG, hsurvF, hkG, hkF, hdropz]
          refine prod3_ext ?_ rfl rfl
          simp [List.append_assoc]
        · have hanyG' : ((arena.take (z + 1)).drop 1).any fullRow = false := by
            simpa using hanyG
          have hsurvG : sweepSurviving (arena.take (z + 1)) = arena.take (z + 1) := by
            unfold sweepSurviving
            rw [if_neg hanyG]
          have hsurvF : sweepSurviving (arena.take (z + 1) ++ [arena[z + 1]])
              = arena.take (z + 1) ++ [arena[z + 1]] := by
            unfold sweepSurviving
            rw [if_neg (by rw [hanyFG]; exact hanyG)]
          have hkG : sweepClears (arena.take (z + 1)) = 0 := by
            unfold sweepClears
            rw [hsurvG]
            omega
          have hkF : sweepClears (arena.take (z + 1) ++ [arena[z + 1]]) = 0 := by
            unfold sweepClears
            rw [hsurvF]
            omega
          rw [hsurvG, hsurvF, hkG, hkF, hdropz]
          refine prod3_ext ?_ rfl rfl
          simp [List.append_assoc]

/-- **C4** (counterexample).  The scan `for (let y = arena.length - 1; y > 0; --y)`
never tests row 0: on a board whose only completely non-zero row is row 0,
`sweep` removes nothing and reports 0 rows cleared, so "removes every row of
the board that is completely non-zero" fails as stated. -/
theorem sweep_row0_counterexample :
    fullRow ([[1, 1], [1, 0]].getD 0 []) = true ∧
    sweepRun [[1, 1], [1, 0]] = ([[1, 1], [1, 0]], 0, 0) := by
  decide

/-- **C4** (amended).  One `sweep` call removes every completely non-zero row
that the scan reaches — every full row at an index ≥ 1, plus a full row 0
when some lower clear shifts it down (`sweepSurviving` is exactly that rule:
if any full row sits at index ≥ 1 all full rows are dropped, otherwise the
board is untouched).  Each removal inserts an all-zero row at index 0, the
relative order of the surviving rows is preserved (they form a sublist kept
by `filter`), and the returned count is the number of rows cleared. -/
theorem sweep_spec (arena : List (List Nat)) (w : Nat) (hw : 0 < w)
    (hrect : ∀ r ∈ arena, r.length = w) :
    (sweepRun arena).1
      = List.replicate (sweepClears arena) (List.replicate w 0) ++ sweepSurviving arena
    ∧ (sweepRun arena).2.1 = sweepClears arena := by
  cases arena with
  | nil => exact ⟨rfl, rfl⟩
  | cons a t =>
    have hlen : (a :: t).length - 1 < (a :: t).length := by simp
    have hfuel : 1 + ((a :: t).length - 1)
        + ((a :: t).take ((a :: t).length - 1 + 1)).countP fullRow
        ≤ 2 * (a :: t).length + 1 := by
      have h1 : ((a :: t).take ((a :: t).length - 1 + 1)).countP fullRow
          ≤ ((a :: t).take ((a :: t).length - 1 + 1)).length := List.countP_le_length _
      have h2 : ((a :: t).take ((a :: t).length - 1 + 1)).length ≤ (a :: t).length :=
        List.length_take_le _ _
      omega
    have h := sweepAux_spec w hw (2 * (a :: t).length + 1) (a :: t)
      ((a :: t).length - 1) 1 0 0 hrect hlen hfuel
    have hidx : (a :: t).length - 1 + 1 = (a :: t).length := by simp
    have htake : (a :: t).take ((a :: t).length - 1 + 1) = a :: t := by
      rw [hidx]
      exact List.take_length (a :: t)
    have hdrop : (a :: t).drop ((a :: t).length - 1 + 1) = [] := by
      rw [hidx]
      exact List.drop_length (a :: t)
    have hrun : sweepRun (a :: t)
        = sweepAux (2 * (a :: t).length + 1) (a :: t) ((a :: t).length - 1) 1 0 0 := rfl
    rw [htake, hdrop] at h
    rw [hrun, h]
    constructor
    · simp
    · simp

/-- Witness for `sweep_spec`: a 7-row board whose only full rows are rows 2
and 5; `sweep` clears exactly those two, pushes two zero rows on top, and
keeps the other rows in order. -/
theorem sweep_spec_witness :
    (sweepRun [[1, 0, 0], [0, 0, 0], [1, 1, 1], [1, 0, 1], [0, 0, 0], [2, 2, 2], [0, 1, 0]]).1
      = [[0, 0, 0], [0, 0, 0], [1, 0, 0], [0, 0, 0], [1, 0, 1], [0, 0, 0], [0, 1, 0]] ∧
    (sweepRun [[1, 0, 0], [0, 0, 0], [1, 1, 1], [1, 0, 1], [0, 0, 0], [2, 2, 2], [0, 1, 0]]).2.1
      = 2 := by
  have h := sweep_spec
    [[1, 0, 0], [0, 0, 0], [1, 1, 1], [1, 0, 1], [0, 0, 0], [2, 2, 2], [0, 1, 0]] 3
    (by decide) (by decide)
  constructor
  · rw [h.1]
    decide
  · rw [h.2]
    decide

end FHETetris
